import Mathlib

/-!
Shallow embedding of the `bake` build orchestrator (src/lib.rs, src/project.rs).

The filesystem is modelled as lists of directory entries carrying a name, a
regular-file flag and a modification time.  External child processes (compiler
and linker invocations) are modelled by an oracle `World` that maps each
spawned command to its outcome (launch failure, or termination with an exit
code) and assigns modification times to the files those processes write.
-/

namespace Bake

/-- Rust enum `BuildMode` from src/lib.rs: the optimisation level used for compilation. -/
inductive BuildMode
  | Debug
  | Release
deriving Repr, DecidableEq

/-- Rust `BuildMode::to_flag` from src/lib.rs. -/
def BuildMode.to_flag : BuildMode → String
  | .Debug => "-O0"
  | .Release => "-O3"

/-- The `Display` impl for `BuildMode` in src/lib.rs, used to name the
mode-specific output subdirectory. -/
def BuildMode.toDirName : BuildMode → String
  | .Debug => "debug"
  | .Release => "release"

/-- Rust enum `Lang` from src/project.rs: the language of a source file. -/
inductive Lang
  | C
  | Cpp
deriving Repr, DecidableEq

/-- The `FromStr` impl for `Lang` in src/project.rs: parse a file extension. -/
def Lang.fromStr (s : String) : Option Lang :=
  if s = "c" then some .C
  else if s = "cc" ∨ s = "cxx" ∨ s = "cpp" ∨ s = "c++" then some .Cpp
  else none

/-- Resolution of the `CC` static in src/project.rs from the process
environment (`env::var("CC").unwrap_or_else(|_| "cc".to_string())`). -/
def ccResolve (env : String → Option String) : String :=
  (env "CC").getD "cc"

/-- Resolution of the `CPP` static in src/project.rs from the process
environment (`env::var("CXX").unwrap_or_else(|_| "c++".to_string())`). -/
def cxxResolve (env : String → Option String) : String :=
  (env "CXX").getD "c++"

/-- The cells of the two `once_cell::sync::Lazy` statics `CC` and `CPP` in
src/project.rs: `none` means not yet forced. -/
structure ToolCache where
  ccCache : Option String
  cxxCache : Option String
deriving Repr, DecidableEq

/-- Forcing the `CC` lazy static: returns the cached value if present,
otherwise resolves from the current environment and caches the result. -/
def forceCC (env : String → Option String) (st : ToolCache) : String × ToolCache :=
  match st.ccCache with
  | some s => (s, st)
  | none => (ccResolve env, { st with ccCache := some (ccResolve env) })

/-- Forcing the `CPP` lazy static. -/
def forceCXX (env : String → Option String) (st : ToolCache) : String × ToolCache :=
  match st.cxxCache with
  | some s => (s, st)
  | none => (cxxResolve env, { st with cxxCache := some (cxxResolve env) })

/-- Rust `Lang::get_compiler` from src/project.rs: dereferences the lazy static for
the language, forcing it on first use. -/
def Lang.get_compiler (env : String → Option String) (st : ToolCache) :
    Lang → String × ToolCache
  | .C => forceCC env st
  | .Cpp => forceCXX env st

/-- Model of Rust `Path::extension` applied to a bare file name: the portion
after the last `.` of the name, or `none` when there is no `.`, when the name
is `..`, or when the only `.` is the leading character (hidden files). -/
def rustExtension (name : String) : Option String :=
  if name = ".." then none
  else
    match (name.data.reverse).findIdx? (· == '.') with
    | none => none
    | some i =>
      if name.data.reverse.drop (i + 1) = [] then none
      else some ⟨(name.data.reverse.take i).reverse⟩

/-- The language of a source file as computed in `build_project_inner`
(src/project.rs lines 139-145): extension, then `Lang::from_str`. -/
def langOfName (n : String) : Option Lang :=
  (rustExtension n).bind Lang.fromStr

/-- A directory entry: its file name, whether the metadata says it is a
regular file, and its last-modified time. -/
structure Entry where
  name : String
  isFile : Bool
  mtime : Nat
deriving Repr, DecidableEq

/-- Look up a directory entry by name. -/
def lookupEntry : List Entry → String → Option Entry
  | [], _ => none
  | e :: rest, n => if e.name = n then some e else lookupEntry rest n

/-- Effect on a directory listing of a child process writing file `n` at time
`t`: the existing entry is overwritten in place, or a fresh one is appended. -/
def writeFile (bin : List Entry) (n : String) (t : Nat) : List Entry :=
  match bin with
  | [] => [⟨n, true, t⟩]
  | e :: rest =>
    if e.name = n then { e with isFile := true, mtime := t } :: rest
    else e :: writeFile rest n t

/-- The staleness test of src/project.rs lines 154-156:
`!object_path.exists() || source.modified() > object.modified()`. -/
def isStale (bin : List Entry) (objN : String) (srcMtime : Nat) : Bool :=
  match lookupEntry bin objN with
  | none => true
  | some o => decide (o.mtime < srcMtime)

/-- Outcome of spawning a child process and waiting on it. -/
inductive SpawnResult
  | launchFail
  | exited (code : Nat)
deriving Repr, DecidableEq

/-- The external world: outcomes of compiler spawns (keyed by command and
source path), the mtimes of object files written by successful compiles
(keyed by source file name), the outcome of the link spawn, and the mtime of
the linked executable. -/
structure World where
  compileSpawn : String → String → SpawnResult
  objWriteTime : String → Nat
  linkSpawn : String → List String → SpawnResult
  exeWriteTime : Nat

/-- The fatal errors of the build (src/main's error chain collapsed to the
failure points of `build_project_inner` and `run_project`). -/
inductive BuildError
  | missingSourceDir
  | spawnFail (cmd : String)
  | compileFailed (path : String)
  | linkFailed
  | runSpawnFail (path : String)
deriving Repr, DecidableEq

/-- One recorded child-process invocation: command and argument list. -/
structure Invocation where
  cmd : String
  args : List String
deriving Repr, DecidableEq

/-- The parameters threaded through the compile loop of
`build_project_inner`. -/
structure Params where
  cc : String
  cpp : String
  optLevel : String
  srcDir : String
  binDir : String
  w : World

/-- Rust `Lang::get_compiler` as seen by the compile loop, after both lazy statics
have been resolved to the strings `cc` and `cpp` for the run. -/
def compilerOf (P : Params) : Lang → String
  | .C => P.cc
  | .Cpp => P.cpp

/-- The derived object file name: `file_name + ".o"` (src/project.rs line
152). -/
def objName (e : Entry) : String := e.name ++ ".o"

/-- Result of processing one directory entry of `src/` in the compile loop. -/
inductive StepOut
  | skip
  | compiled (inv : Invocation) (t : Nat)
  | failed (err : BuildError)
deriving Repr

/-- The body of the `for source in fs::read_dir(&src_dir)` loop of
`build_project_inner` (src/project.rs lines 125-173) for one entry: skip
non-files and unrecognized extensions, test staleness, and if stale spawn the
compiler with `[opt_level, "-g", "-c", source, "-o", object]`. -/
def stepEntry (P : Params) (bin : List Entry) (e : Entry) : StepOut :=
  if e.isFile = false then .skip
  else
    match langOfName e.name with
    | none => .skip
    | some lang =>
      if isStale bin (objName e) e.mtime then
        match P.w.compileSpawn (compilerOf P lang) (P.srcDir ++ "/" ++ e.name) with
        | .launchFail => .failed (.spawnFail (compilerOf P lang))
        | .exited 0 =>
          .compiled
            ⟨compilerOf P lang,
             [P.optLevel, "-g", "-c", P.srcDir ++ "/" ++ e.name, "-o",
              P.binDir ++ "/" ++ objName e]⟩
            (P.w.objWriteTime e.name)
        | .exited (_ + 1) => .failed (.compileFailed (P.srcDir ++ "/" ++ e.name))
      else .skip

/-- State after the compile loop: the output directory contents, the compile
invocations made (in order), the names of the sources compiled, and the error
that aborted the loop, if any. -/
structure LoopResult where
  bin : List Entry
  compiles : List Invocation
  compiledSrcs : List String
  err : Option BuildError
deriving Repr

/-- The compile loop of `build_project_inner`: process the entries of `src/`
in enumeration order, stopping at the first failure. -/
def compileLoop (P : Params) : List Entry → List Entry → LoopResult
  | [], bin => ⟨bin, [], [], none⟩
  | e :: rest, bin =>
    match stepEntry P bin e with
    | .skip => compileLoop P rest bin
    | .compiled inv t =>
      let r := compileLoop P rest (writeFile bin (objName e) t)
      ⟨r.bin, inv :: r.compiles, e.name :: r.compiledSrcs, r.err⟩
    | .failed err => ⟨bin, [], [], some err⟩

/-- The filter of the object-collection loop (src/project.rs lines 176-201):
keep exactly the regular files whose extension is `o`. -/
def isObjectFile (e : Entry) : Bool :=
  e.isFile && decide (rustExtension e.name = some "o")

/-- The object-collection loop: the paths of all `.o` regular files directly
inside the mode's output directory, in enumeration order. -/
def collectObjects (binDir : String) (bin : List Entry) : List String :=
  (bin.filter isObjectFile).map (fun e => binDir ++ "/" ++ e.name)

/-- The mode's output directory `bin/<mode>` (src/project.rs line 122). -/
def binDirOf (mode : BuildMode) : String := "bin/" ++ mode.toDirName

/-- The `Params` record `build_project_inner` runs the compile loop with. -/
def mkParams (mode : BuildMode) (cc cpp : String) (w : World) : Params :=
  ⟨cc, cpp, mode.to_flag, "src", binDirOf mode, w⟩

/-- The observable outcome of one `build_project_inner` call. -/
structure BuildOutcome where
  result : Except BuildError Unit
  binDirEnsured : Bool
  bin : List Entry
  compiles : List Invocation
  compiledSrcs : List String
  link : Option Invocation

/-- The project filesystem as the build sees it: the listing of `src/`
(`none` when the directory is missing) and the listing of each mode's output
directory. -/
structure FS where
  srcEntries : Option (List Entry)
  bins : BuildMode → List Entry

/-- Rust `build_project_inner` from src/project.rs: ensure `bin/<mode>` exists
(`fs::create_dir_all`, line 123), read `src/` (line 125, fatal if missing),
run the compile loop, then collect the `.o` files of the output directory and
spawn the link command `CC objects... opt_level -o bin/<mode>/<name>`
(lines 202-212). -/
def build_project_inner (name : String) (mode : BuildMode) (cc cpp : String)
    (w : World) (fs : FS) : BuildOutcome :=
  let optLevel := mode.to_flag
  let binDir := binDirOf mode
  let P := mkParams mode cc cpp w
  match fs.srcEntries with
  | none => ⟨.error .missingSourceDir, true, fs.bins mode, [], [], none⟩
  | some srcs =>
    let r := compileLoop P srcs (fs.bins mode)
    match r.err with
    | some err => ⟨.error err, true, r.bin, r.compiles, r.compiledSrcs, none⟩
    | none =>
      let linkInv : Invocation :=
        ⟨cc, collectObjects binDir r.bin ++ [optLevel, "-o", binDir ++ "/" ++ name]⟩
      match w.linkSpawn linkInv.cmd linkInv.args with
      | .launchFail =>
        ⟨.error (.spawnFail cc), true, r.bin, r.compiles, r.compiledSrcs, some linkInv⟩
      | .exited 0 =>
        ⟨.ok (), true, writeFile r.bin name w.exeWriteTime, r.compiles,
         r.compiledSrcs, some linkInv⟩
      | .exited (_ + 1) =>
        ⟨.error .linkFailed, true, r.bin, r.compiles, r.compiledSrcs, some linkInv⟩

/-- Outcome of spawning and waiting on the built executable in `run_project`:
either the spawn fails, or the wait returns an exit code. -/
inductive RunOutcome
  | launchFail
  | waitResult (code : Nat)
deriving Repr, DecidableEq

/-- Rust `run_project` from src/project.rs (lines 93-113): build, then spawn the
produced executable and wait on it.  A failed spawn is an error; the waited
child's exit status is discarded. -/
def run_project (name : String) (mode : BuildMode) (cc cpp : String) (w : World)
    (runOut : RunOutcome) (fs : FS) : Except BuildError Unit :=
  let b := build_project_inner name mode cc cpp w fs
  match b.result with
  | .error e => .error e
  | .ok _ =>
    match runOut with
    | .launchFail => .error (.runSpawnFail (binDirOf mode ++ "/" ++ name))
    | .waitResult _ => .ok ()

/-- Modelled from the spec: the binary entry point (CLI front end) is not
part of src/; per §6 the overall CLI exits non-zero on any fatal error and
zero on success. -/
def exitCode (r : Except BuildError Unit) : Nat :=
  match r with
  | .ok _ => 0
  | .error _ => 1

/-- Whether a `src/` directory entry belongs to the build set (the two
`continue` guards of src/project.rs lines 136-145): a regular file whose
extension parses to a known language. -/
def sourceSetMember (e : Entry) : Bool :=
  e.isFile && (langOfName e.name).isSome

theorem append_right_cancel_str {a b c : String} (h : a ++ c = b ++ c) : a = b := by
  apply String.ext
  have hd := congrArg String.data h
  simp only [String.data_append] at hd
  exact List.append_cancel_right hd

theorem objName_inj {a b : Entry} (h : objName a = objName b) : a.name = b.name :=
  append_right_cancel_str h

theorem lookupEntry_writeFile_self (bin : List Entry) (n : String) (t : Nat) :
    lookupEntry (writeFile bin n t) n = some ⟨n, true, t⟩ := by
  induction bin with
  | nil => simp [writeFile, lookupEntry]
  | cons e rest ih =>
    by_cases h : e.name = n
    · cases e
      simp_all [writeFile, lookupEntry]
    · simp [writeFile, h, lookupEntry, ih]

theorem lookupEntry_writeFile_ne (bin : List Entry) (n m : String) (t : Nat)
    (h : m ≠ n) : lookupEntry (writeFile bin n t) m = lookupEntry bin m := by
  induction bin with
  | nil =>
    simp only [writeFile, lookupEntry]
    rw [if_neg (fun hc => h hc.symm)]
  | cons e rest ih =>
    by_cases he : e.name = n
    · have hnm : ¬ n = m := fun hc => h hc.symm
      have hem : ¬ e.name = m := fun hc => h (hc.symm.trans he)
      simp [writeFile, he, lookupEntry, hem, hnm]
    · simp only [writeFile, if_neg he, lookupEntry]
      by_cases hem : e.name = m
      · simp [hem]
      · simp [hem, ih]

theorem isStale_writeFile_ne (bin : List Entry) (n m : String) (t srcM : Nat)
    (h : m ≠ n) : isStale (writeFile bin n t) m srcM = isStale bin m srcM := by
  unfold isStale
  rw [lookupEntry_writeFile_ne bin n m t h]

theorem isStale_eq_true_iff (bin : List Entry) (n : String) (m : Nat) :
    isStale bin n m = true ↔
      (lookupEntry bin n = none ∨ ∃ o, lookupEntry bin n = some o ∧ o.mtime < m) := by
  unfold isStale
  cases h : lookupEntry bin n <;> simp

theorem isStale_eq_false_iff (bin : List Entry) (n : String) (m : Nat) :
    isStale bin n m = false ↔ ∃ o, lookupEntry bin n = some o ∧ m ≤ o.mtime := by
  unfold isStale
  cases h : lookupEntry bin n <;> simp

theorem stepEntry_eq_skip_of_not_member (P : Params) (bin : List Entry) (e : Entry)
    (h : sourceSetMember e = false) : stepEntry P bin e = .skip := by
  unfold sourceSetMember at h
  unfold stepEntry
  cases hf : e.isFile with
  | false => simp
  | true =>
    cases hl : langOfName e.name with
    | none => simp
    | some l => simp [hf, hl] at h

theorem stepEntry_member_of_ne_skip (P : Params) (bin : List Entry) (e : Entry)
    (h : stepEntry P bin e ≠ .skip) : sourceSetMember e = true := by
  by_cases hm : sourceSetMember e = true
  · exact hm
  · exact absurd (stepEntry_eq_skip_of_not_member P bin e (by simpa using hm)) h

theorem stepEntry_eq_skip_of_not_stale (P : Params) (bin : List Entry) (e : Entry)
    (hs : isStale bin (objName e) e.mtime = false) : stepEntry P bin e = .skip := by
  unfold stepEntry
  cases hf : e.isFile with
  | false => simp
  | true =>
    cases hl : langOfName e.name with
    | none => simp
    | some l => simp [hs]

theorem stepEntry_eq_compiled (P : Params) (bin : List Entry) (e : Entry) (l : Lang)
    (hf : e.isFile = true) (hl : langOfName e.name = some l)
    (hs : isStale bin (objName e) e.mtime = true)
    (hsp : P.w.compileSpawn (compilerOf P l) (P.srcDir ++ "/" ++ e.name) = .exited 0) :
    stepEntry P bin e =
      .compiled
        ⟨compilerOf P l,
         [P.optLevel, "-g", "-c", P.srcDir ++ "/" ++ e.name, "-o",
          P.binDir ++ "/" ++ objName e]⟩
        (P.w.objWriteTime e.name) := by
  simp [stepEntry, hf, hl, hs, hsp]

theorem stepEntry_eq_failed_compile (P : Params) (bin : List Entry) (e : Entry)
    (l : Lang) (n : Nat) (hf : e.isFile = true) (hl : langOfName e.name = some l)
    (hs : isStale bin (objName e) e.mtime = true)
    (hsp : P.w.compileSpawn (compilerOf P l) (P.srcDir ++ "/" ++ e.name) = .exited (n + 1)) :
    stepEntry P bin e = .failed (.compileFailed (P.srcDir ++ "/" ++ e.name)) := by
  simp [stepEntry, hf, hl, hs, hsp]

theorem stepEntry_eq_failed_spawn (P : Params) (bin : List Entry) (e : Entry)
    (l : Lang) (hf : e.isFile = true) (hl : langOfName e.name = some l)
    (hs : isStale bin (objName e) e.mtime = true)
    (hsp : P.w.compileSpawn (compilerOf P l) (P.srcDir ++ "/" ++ e.name) = .launchFail) :
    stepEntry P bin e = .failed (.spawnFail (compilerOf P l)) := by
  simp [stepEntry, hf, hl, hs, hsp]

theorem stepEntry_not_failed (P : Params)
    (hsp : ∀ c s, P.w.compileSpawn c s = .exited 0) (bin : List Entry) (e : Entry)
    (er : BuildError) : stepEntry P bin e ≠ .failed er := by
  unfold stepEntry
  cases hf : e.isFile with
  | false => simp
  | true =>
    cases hl : langOfName e.name with
    | none => simp
    | some l =>
      cases hs : isStale bin (objName e) e.mtime with
      | false => simp [hs]
      | true => simp [hs, hsp]

theorem compileLoop_err_none (P : Params)
    (hsp : ∀ c s, P.w.compileSpawn c s = .exited 0) (srcs bin : List Entry) :
    (compileLoop P srcs bin).err = none := by
  induction srcs generalizing bin with
  | nil => rfl
  | cons e rest ih =>
    cases hstep : stepEntry P bin e with
    | skip => simp [compileLoop, hstep, ih]
    | compiled inv t => simp [compileLoop, hstep, ih]
    | failed er => exact absurd hstep (stepEntry_not_failed P hsp bin e er)

theorem compileLoop_append_ok (P : Params) (xs ys bin : List Entry)
    (h : (compileLoop P xs bin).err = none) :
    compileLoop P (xs ++ ys) bin =
      ⟨(compileLoop P ys (compileLoop P xs bin).bin).bin,
       (compileLoop P xs bin).compiles ++ (compileLoop P ys (compileLoop P xs bin).bin).compiles,
       (compileLoop P xs bin).compiledSrcs ++
         (compileLoop P ys (compileLoop P xs bin).bin).compiledSrcs,
       (compileLoop P ys (compileLoop P xs bin).bin).err⟩ := by
  induction xs generalizing bin with
  | nil => simp [compileLoop]
  | cons e rest ih =>
    cases hstep : stepEntry P bin e with
    | skip =>
      rw [compileLoop] at h
      simp only [hstep] at h
      simp only [List.cons_append, compileLoop, hstep]
      exact ih bin h
    | compiled inv t =>
      rw [compileLoop] at h
      simp only [hstep] at h
      simp only [List.cons_append, compileLoop, hstep, List.append_eq]
      rw [ih (writeFile bin (objName e) t) h]
    | failed er =>
      rw [compileLoop] at h
      simp [hstep] at h

theorem compiledSrcs_subset (P : Params) (srcs bin : List Entry) :
    ∀ n ∈ (compileLoop P srcs bin).compiledSrcs, n ∈ srcs.map Entry.name := by
  induction srcs generalizing bin with
  | nil => simp [compileLoop]
  | cons e rest ih =>
    intro n hn
    cases hstep : stepEntry P bin e with
    | skip =>
      rw [compileLoop] at hn
      simp only [hstep] at hn
      exact List.mem_cons_of_mem _ (ih bin n hn)
    | compiled inv t =>
      rw [compileLoop] at hn
      simp only [hstep, List.mem_cons] at hn
      rcases hn with rfl | hn
      · simp
      · exact List.mem_cons_of_mem _ (ih _ n hn)
    | failed er =>
      rw [compileLoop] at hn
      simp [hstep] at hn

theorem lookupEntry_compileLoop_of_notin (P : Params) (srcs bin : List Entry)
    (n : String) (h : ∀ e ∈ srcs, objName e ≠ n) :
    lookupEntry (compileLoop P srcs bin).bin n = lookupEntry bin n := by
  induction srcs generalizing bin with
  | nil => rfl
  | cons e rest ih =>
    cases hstep : stepEntry P bin e with
    | skip =>
      rw [compileLoop]
      simp only [hstep]
      exact ih bin (fun x hx => h x (List.mem_cons_of_mem e hx))
    | compiled inv t =>
      rw [compileLoop]
      simp only [hstep]
      rw [ih (writeFile bin (objName e) t) (fun x hx => h x (List.mem_cons_of_mem e hx))]
      exact lookupEntry_writeFile_ne bin (objName e) n t
        (fun hc => h e (List.mem_cons_self e rest) hc.symm)
    | failed er =>
      rw [compileLoop]
      simp only [hstep]

theorem compileLoop_all_skip (P : Params) (srcs bin : List Entry)
    (h : ∀ e ∈ srcs, stepEntry P bin e = .skip) :
    compileLoop P srcs bin = ⟨bin, [], [], none⟩ := by
  induction srcs with
  | nil => rfl
  | cons e rest ih =>
    rw [compileLoop]
    simp only [h e (List.mem_cons_self e rest)]
    exact ih (fun x hx => h x (List.mem_cons_of_mem e hx))

theorem mem_compiledSrcs_iff (P : Params)
    (hsp : ∀ c s, P.w.compileSpawn c s = .exited 0) (srcs : List Entry)
    (bin : List Entry) (hnd : (srcs.map Entry.name).Nodup) (e : Entry)
    (he : e ∈ srcs) (hf : e.isFile = true) (l : Lang)
    (hl : langOfName e.name = some l) :
    (e.name ∈ (compileLoop P srcs bin).compiledSrcs ↔
      isStale bin (objName e) e.mtime = true) := by
  induction srcs generalizing bin with
  | nil => cases he
  | cons a rest ih =>
    have hnd' : (rest.map Entry.name).Nodup := (List.nodup_cons.mp hnd).2
    have hhead : a.name ∉ rest.map Entry.name := (List.nodup_cons.mp hnd).1
    rcases List.mem_cons.mp he with rfl | hmem
    · cases hs : isStale bin (objName e) e.mtime with
      | true =>
        rw [compileLoop]
        simp only [stepEntry_eq_compiled P bin e l hf hl hs (hsp _ _)]
        simp
      | false =>
        rw [compileLoop]
        simp only [stepEntry_eq_skip_of_not_stale P bin e hs]
        simp only [Bool.false_eq_true, iff_false]
        intro hmem'
        exact hhead (compiledSrcs_subset P rest bin e.name hmem')
    · have hne : a.name ≠ e.name :=
        fun hc => hhead (hc ▸ List.mem_map_of_mem Entry.name hmem)
      have hobj : objName e ≠ objName a := fun hc => hne (objName_inj hc).symm
      cases hstep : stepEntry P bin a with
      | skip =>
        rw [compileLoop]
        simp only [hstep]
        exact ih bin hnd' hmem
      | compiled inv t =>
        rw [compileLoop]
        simp only [hstep, List.mem_cons]
        have ih' := ih (writeFile bin (objName a) t) hnd' hmem
        rw [isStale_writeFile_ne bin (objName a) (objName e) t e.mtime hobj] at ih'
        rw [← ih']
        simp [Ne.symm hne]
      | failed er => exact absurd hstep (stepEntry_not_failed P hsp bin a er)

theorem lookupEntry_compileLoop_self (P : Params)
    (hsp : ∀ c s, P.w.compileSpawn c s = .exited 0) (srcs bin : List Entry)
    (hnd : (srcs.map Entry.name).Nodup) (e : Entry) (he : e ∈ srcs)
    (hf : e.isFile = true) (l : Lang) (hl : langOfName e.name = some l) :
    lookupEntry (compileLoop P srcs bin).bin (objName e) =
      (if isStale bin (objName e) e.mtime = true
       then some ⟨objName e, true, P.w.objWriteTime e.name⟩
       else lookupEntry bin (objName e)) := by
  induction srcs generalizing bin with
  | nil => cases he
  | cons a rest ih =>
    have hnd' : (rest.map Entry.name).Nodup := (List.nodup_cons.mp hnd).2
    have hhead : a.name ∉ rest.map Entry.name := (List.nodup_cons.mp hnd).1
    rcases List.mem_cons.mp he with rfl | hmem
    · have hrest : ∀ x ∈ rest, objName x ≠ objName e := by
        intro x hx hc
        exact hhead ((objName_inj hc) ▸ List.mem_map_of_mem Entry.name hx)
      cases hs : isStale bin (objName e) e.mtime with
      | true =>
        rw [compileLoop]
        simp only [stepEntry_eq_compiled P bin e l hf hl hs (hsp _ _)]
        rw [lookupEntry_compileLoop_of_notin P rest _ (objName e) hrest,
          lookupEntry_writeFile_self bin (objName e) (P.w.objWriteTime e.name)]
        simp [hs]
      | false =>
        rw [compileLoop]
        simp only [stepEntry_eq_skip_of_not_stale P bin e hs]
        rw [lookupEntry_compileLoop_of_notin P rest bin (objName e) hrest]
        simp [hs]
    · have hne : a.name ≠ e.name :=
        fun hc => hhead (hc ▸ List.mem_map_of_mem Entry.name hmem)
      have hobj : objName e ≠ objName a := fun hc => hne (objName_inj hc).symm
      cases hstep : stepEntry P bin a with
      | skip =>
        rw [compileLoop]
        simp only [hstep]
        exact ih bin hnd' hmem
      | compiled inv t =>
        rw [compileLoop]
        simp only [hstep]
        rw [ih (writeFile bin (objName a) t) hnd' hmem]
        rw [isStale_writeFile_ne bin (objName a) (objName e) t e.mtime hobj]
        rw [lookupEntry_writeFile_ne bin (objName a) (objName e) t hobj]
      | failed er => exact absurd hstep (stepEntry_not_failed P hsp bin a er)

theorem build_eq_of_err_some (name : String) (mode : BuildMode) (cc cpp : String)
    (w : World) (srcs : List Entry) (bins : BuildMode → List Entry)
    (er : BuildError)
    (h : (compileLoop (mkParams mode cc cpp w) srcs (bins mode)).err = some er) :
    build_project_inner name mode cc cpp w ⟨some srcs, bins⟩ =
      ⟨.error er, true, (compileLoop (mkParams mode cc cpp w) srcs (bins mode)).bin,
       (compileLoop (mkParams mode cc cpp w) srcs (bins mode)).compiles,
       (compileLoop (mkParams mode cc cpp w) srcs (bins mode)).compiledSrcs,
       none⟩ := by
  unfold build_project_inner
  simp [h]

theorem build_link_of_err_none (name : String) (mode : BuildMode) (cc cpp : String)
    (w : World) (srcs : List Entry) (bins : BuildMode → List Entry)
    (h : (compileLoop (mkParams mode cc cpp w) srcs (bins mode)).err = none) :
    (build_project_inner name mode cc cpp w ⟨some srcs, bins⟩).link =
      some ⟨cc,
        collectObjects (binDirOf mode)
            (compileLoop (mkParams mode cc cpp w) srcs (bins mode)).bin ++
          [mode.to_flag, "-o", binDirOf mode ++ "/" ++ name]⟩ := by
  unfold build_project_inner
  simp only [h]
  cases hlk : w.linkSpawn cc
      (collectObjects (binDirOf mode)
          (compileLoop (mkParams mode cc cpp w) srcs (bins mode)).bin ++
        [mode.to_flag, "-o", binDirOf mode ++ "/" ++ name]) with
  | launchFail => simp [hlk]
  | exited c =>
    cases c with
    | zero => simp [hlk]
    | succ m => simp [hlk]

theorem build_compiles_eq (name : String) (mode : BuildMode) (cc cpp : String)
    (w : World) (srcs : List Entry) (bins : BuildMode → List Entry) :
    (build_project_inner name mode cc cpp w ⟨some srcs, bins⟩).compiles =
      (compileLoop (mkParams mode cc cpp w) srcs (bins mode)).compiles := by
  unfold build_project_inner
  cases h : (compileLoop (mkParams mode cc cpp w) srcs (bins mode)).err with
  | some er => simp [h]
  | none =>
    simp only [h]
    cases hlk : w.linkSpawn cc
        (collectObjects (binDirOf mode)
            (compileLoop (mkParams mode cc cpp w) srcs (bins mode)).bin ++
          [mode.to_flag, "-o", binDirOf mode ++ "/" ++ name]) with
    | launchFail => simp [hlk]
    | exited c =>
      cases c with
      | zero => simp [hlk]
      | succ m => simp [hlk]

theorem build_compiledSrcs_eq (name : String) (mode : BuildMode) (cc cpp : String)
    (w : World) (srcs : List Entry) (bins : BuildMode → List Entry) :
    (build_project_inner name mode cc cpp w ⟨some srcs, bins⟩).compiledSrcs =
      (compileLoop (mkParams mode cc cpp w) srcs (bins mode)).compiledSrcs := by
  unfold build_project_inner
  cases h : (compileLoop (mkParams mode cc cpp w) srcs (bins mode)).err with
  | some er => simp [h]
  | none =>
    simp only [h]
    cases hlk : w.linkSpawn cc
        (collectObjects (binDirOf mode)
            (compileLoop (mkParams mode cc cpp w) srcs (bins mode)).bin ++
          [mode.to_flag, "-o", binDirOf mode ++ "/" ++ name]) with
    | launchFail => simp [hlk]
    | exited c =>
      cases c with
      | zero => simp [hlk]
      | succ m => simp [hlk]

theorem build_ok_parts (name : String) (mode : BuildMode) (cc cpp : String)
    (w : World) (srcs : List Entry) (bins : BuildMode → List Entry)
    (hok : (build_project_inner name mode cc cpp w ⟨some srcs, bins⟩).result = .ok ()) :
    (compileLoop (mkParams mode cc cpp w) srcs (bins mode)).err = none ∧
      (build_project_inner name mode cc cpp w ⟨some srcs, bins⟩).bin =
        writeFile (compileLoop (mkParams mode cc cpp w) srcs (bins mode)).bin name
          w.exeWriteTime := by
  unfold build_project_inner at hok ⊢
  cases h : (compileLoop (mkParams mode cc cpp w) srcs (bins mode)).err with
  | some er => simp [h] at hok
  | none =>
    simp only [h] at hok ⊢
    cases hlk : w.linkSpawn cc
        (collectObjects (binDirOf mode)
            (compileLoop (mkParams mode cc cpp w) srcs (bins mode)).bin ++
          [mode.to_flag, "-o", binDirOf mode ++ "/" ++ name]) with
    | launchFail => simp [hlk] at hok
    | exited c =>
      cases c with
      | zero => simp [hlk]
      | succ m => simp [hlk] at hok

theorem srcPath_eq (s : String) : ("src" : String) ++ "/" ++ s = "src/" ++ s := rfl

/-- Claim C1: for every source file in the build set (a regular file of `src/`
whose extension names a known language), a build whose compiler invocations
all succeed compiles that file if and only if its derived object file does
not exist in the mode's output directory or the source's last-modified
timestamp is strictly greater than the object's; when the timestamps are
equal the file is treated as up to date and is not compiled. -/
theorem C1_compile_iff_stale (name : String) (mode : BuildMode) (cc cpp : String)
    (w : World) (srcs : List Entry) (bins : BuildMode → List Entry)
    (hsp : ∀ c s, w.compileSpawn c s = .exited 0)
    (hnd : (srcs.map Entry.name).Nodup) (e : Entry) (he : e ∈ srcs)
    (hf : e.isFile = true) (l : Lang) (hl : langOfName e.name = some l) :
    (e.name ∈ (build_project_inner name mode cc cpp w ⟨some srcs, bins⟩).compiledSrcs ↔
      (lookupEntry (bins mode) (objName e) = none ∨
        ∃ o, lookupEntry (bins mode) (objName e) = some o ∧ o.mtime < e.mtime)) := by
  rw [build_compiledSrcs_eq name mode cc cpp w srcs bins]
  rw [← isStale_eq_true_iff (bins mode) (objName e) e.mtime]
  exact mem_compiledSrcs_iff (mkParams mode cc cpp w) hsp srcs (bins mode) hnd e he hf l hl

theorem C1_compile_iff_stale_witness :
    (("main.c" ∈ (build_project_inner "app" .Debug "cc" "c++"
          ⟨fun _ _ => .exited 0, fun _ => 7, fun _ _ => .exited 0, 8⟩
          ⟨some [⟨"main.c", true, 5⟩], fun _ => []⟩).compiledSrcs ↔
        (lookupEntry [] (objName ⟨"main.c", true, 5⟩) = none ∨
          ∃ o, lookupEntry [] (objName ⟨"main.c", true, 5⟩) = some o ∧
            o.mtime < Entry.mtime ⟨"main.c", true, 5⟩))) :=
  C1_compile_iff_stale "app" .Debug "cc" "c++"
    ⟨fun _ _ => .exited 0, fun _ => 7, fun _ _ => .exited 0, 8⟩
    [⟨"main.c", true, 5⟩] (fun _ => []) (fun _ _ => rfl) (by decide)
    ⟨"main.c", true, 5⟩ (by decide) rfl Lang.C (by decide)

/-- Claim C2: if compiling a source file fails because the compiler exits with
a non-zero status, no source file enumerated after it is compiled, the link
step is never invoked in that build, and the build returns an error naming
the failed file's path. -/
theorem C2_compile_failure_short_circuits (name : String) (mode : BuildMode)
    (cc cpp : String) (w : World) (bins : BuildMode → List Entry)
    (xs ys : List Entry) (b : Entry) (l : Lang) (n : Nat)
    (hnd : ((xs ++ b :: ys).map Entry.name).Nodup)
    (hpre : (compileLoop (mkParams mode cc cpp w) xs (bins mode)).err = none)
    (hf : b.isFile = true) (hl : langOfName b.name = some l)
    (hst : isStale (compileLoop (mkParams mode cc cpp w) xs (bins mode)).bin
      (objName b) b.mtime = true)
    (hspawn : w.compileSpawn (compilerOf (mkParams mode cc cpp w) l)
      ("src/" ++ b.name) = .exited (n + 1)) :
    (build_project_inner name mode cc cpp w ⟨some (xs ++ b :: ys), bins⟩).result =
        .error (.compileFailed ("src/" ++ b.name)) ∧
      (build_project_inner name mode cc cpp w ⟨some (xs ++ b :: ys), bins⟩).link =
        none ∧
      ∀ s ∈ ys, s.name ∉
        (build_project_inner name mode cc cpp w
          ⟨some (xs ++ b :: ys), bins⟩).compiledSrcs := by
  have hstep : stepEntry (mkParams mode cc cpp w)
      (compileLoop (mkParams mode cc cpp w) xs (bins mode)).bin b =
      .failed (.compileFailed ("src/" ++ b.name)) := by
    exact stepEntry_eq_failed_compile (mkParams mode cc cpp w)
      (compileLoop (mkParams mode cc cpp w) xs (bins mode)).bin b l n hf hl hst
      hspawn
  have hloop : compileLoop (mkParams mode cc cpp w) (xs ++ b :: ys) (bins mode) =
      ⟨(compileLoop (mkParams mode cc cpp w) xs (bins mode)).bin,
       (compileLoop (mkParams mode cc cpp w) xs (bins mode)).compiles,
       (compileLoop (mkParams mode cc cpp w) xs (bins mode)).compiledSrcs,
       some (.compileFailed ("src/" ++ b.name))⟩ := by
    rw [compileLoop_append_ok (mkParams mode cc cpp w) xs (b :: ys) (bins mode) hpre]
    rw [compileLoop]
    simp only [hstep]
    simp
  have hbuild := build_eq_of_err_some name mode cc cpp w (xs ++ b :: ys) bins
    (.compileFailed ("src/" ++ b.name)) (by rw [hloop])
  refine ⟨by rw [hbuild], by rw [hbuild], ?_⟩
  intro s hs hmem
  rw [hbuild] at hmem
  simp only at hmem
  rw [hloop] at hmem
  simp only at hmem
  have hsub := compiledSrcs_subset (mkParams mode cc cpp w) xs (bins mode) s.name hmem
  have hnd2 := hnd
  rw [List.map_append] at hnd2
  rcases List.nodup_append.mp hnd2 with ⟨_, _, hdisj⟩
  exact hdisj hsub
    (by simp only [List.map_cons, List.mem_cons]
        exact Or.inr (List.mem_map_of_mem Entry.name hs))

theorem C2_compile_failure_short_circuits_witness :
    ((build_project_inner "app" .Debug "cc" "c++"
        ⟨fun _ _ => .exited 1, fun _ => 7, fun _ _ => .exited 0, 8⟩
        ⟨some ([] ++ (⟨"b.c", true, 5⟩ : Entry) :: [⟨"c.c", true, 5⟩]),
          fun _ => []⟩).result =
        .error (.compileFailed ("src/" ++ "b.c")) ∧
      (build_project_inner "app" .Debug "cc" "c++"
        ⟨fun _ _ => .exited 1, fun _ => 7, fun _ _ => .exited 0, 8⟩
        ⟨some ([] ++ (⟨"b.c", true, 5⟩ : Entry) :: [⟨"c.c", true, 5⟩]),
          fun _ => []⟩).link = none ∧
      ∀ s ∈ [(⟨"c.c", true, 5⟩ : Entry)], s.name ∉
        (build_project_inner "app" .Debug "cc" "c++"
          ⟨fun _ _ => .exited 1, fun _ => 7, fun _ _ => .exited 0, 8⟩
          ⟨some ([] ++ (⟨"b.c", true, 5⟩ : Entry) :: [⟨"c.c", true, 5⟩]),
            fun _ => []⟩).compiledSrcs) :=
  C2_compile_failure_short_circuits "app" .Debug "cc" "c++"
    ⟨fun _ _ => .exited 1, fun _ => 7, fun _ _ => .exited 0, 8⟩ (fun _ => [])
    [] [⟨"c.c", true, 5⟩] ⟨"b.c", true, 5⟩ Lang.C 0 (by decide) rfl rfl
    (by decide) (by decide) rfl

/-- Claim C3: after a successful build, running the build again with the
same sources performs zero compiler invocations, while the link step is
still invoked on both builds (there is no skip-if-unchanged check at the
link stage). -/
theorem C3_second_build_no_compiles (name : String) (mode : BuildMode)
    (cc cpp : String) (w : World) (srcs : List Entry)
    (bins : BuildMode → List Entry)
    (hsp : ∀ c s, w.compileSpawn c s = .exited 0)
    (hnd : (srcs.map Entry.name).Nodup)
    (hot : ∀ e ∈ srcs, e.mtime ≤ w.objWriteTime e.name)
    (hcol : ∀ e ∈ srcs, name ≠ objName e)
    (hok : (build_project_inner name mode cc cpp w ⟨some srcs, bins⟩).result = .ok ()) :
    (build_project_inner name mode cc cpp w
        ⟨some srcs,
          fun _ => (build_project_inner name mode cc cpp w ⟨some srcs, bins⟩).bin⟩).compiles =
        [] ∧
      (build_project_inner name mode cc cpp w ⟨some srcs, bins⟩).link.isSome = true ∧
      (build_project_inner name mode cc cpp w
        ⟨some srcs,
          fun _ => (build_project_inner name mode cc cpp w ⟨some srcs, bins⟩).bin⟩).link.isSome =
        true := by
  obtain ⟨herr1, hbin1⟩ := build_ok_parts name mode cc cpp w srcs bins hok
  have hskip : ∀ e ∈ srcs,
      stepEntry (mkParams mode cc cpp w)
        ((build_project_inner name mode cc cpp w ⟨some srcs, bins⟩).bin) e = .skip := by
    intro e he
    cases hm : sourceSetMember e with
    | false => exact stepEntry_eq_skip_of_not_member _ _ e hm
    | true =>
      have hm' : e.isFile = true ∧ (langOfName e.name).isSome = true := by
        simpa [sourceSetMember] using hm
      obtain ⟨hf, hls⟩ := hm'
      obtain ⟨l, hl⟩ := Option.isSome_iff_exists.mp hls
      apply stepEntry_eq_skip_of_not_stale
      rw [hbin1]
      rw [isStale_writeFile_ne
        (compileLoop (mkParams mode cc cpp w) srcs (bins mode)).bin name (objName e)
        w.exeWriteTime e.mtime (fun hc => hcol e he hc.symm)]
      rw [isStale_eq_false_iff]
      have hself := lookupEntry_compileLoop_self (mkParams mode cc cpp w) hsp srcs
        (bins mode) hnd e he hf l hl
      cases hs0 : isStale (bins mode) (objName e) e.mtime with
      | true =>
        rw [hs0] at hself
        simp only [if_pos] at hself
        exact ⟨_, hself, hot e he⟩
      | false =>
        rw [hs0] at hself
        simp only [Bool.false_eq_true, if_neg, if_false] at hself
        obtain ⟨o, ho, hle⟩ := (isStale_eq_false_iff (bins mode) (objName e) e.mtime).mp hs0
        exact ⟨o, by rw [hself]; exact ho, hle⟩
  have hloop2 := compileLoop_all_skip (mkParams mode cc cpp w) srcs
    ((build_project_inner name mode cc cpp w ⟨some srcs, bins⟩).bin) hskip
  refine ⟨?_, ?_, ?_⟩
  · rw [build_compiles_eq]
    simp only [hloop2]
  · rw [build_link_of_err_none name mode cc cpp w srcs bins herr1]
    rfl
  · rw [build_link_of_err_none name mode cc cpp w srcs
      (fun _ => (build_project_inner name mode cc cpp w ⟨some srcs, bins⟩).bin)
      (by simp only [hloop2])]
    rfl

theorem C3_second_build_no_compiles_witness :
    ((build_project_inner "app" .Debug "cc" "c++"
        ⟨fun _ _ => .exited 0, fun _ => 7, fun _ _ => .exited 0, 8⟩
        ⟨some [⟨"main.c", true, 5⟩],
          fun _ => (build_project_inner "app" .Debug "cc" "c++"
            ⟨fun _ _ => .exited 0, fun _ => 7, fun _ _ => .exited 0, 8⟩
            ⟨some [⟨"main.c", true, 5⟩], fun _ => []⟩).bin⟩).compiles = [] ∧
      (build_project_inner "app" .Debug "cc" "c++"
        ⟨fun _ _ => .exited 0, fun _ => 7, fun _ _ => .exited 0, 8⟩
        ⟨some [⟨"main.c", true, 5⟩], fun _ => []⟩).link.isSome = true ∧
      (build_project_inner "app" .Debug "cc" "c++"
        ⟨fun _ _ => .exited 0, fun _ => 7, fun _ _ => .exited 0, 8⟩
        ⟨some [⟨"main.c", true, 5⟩],
          fun _ => (build_project_inner "app" .Debug "cc" "c++"
            ⟨fun _ _ => .exited 0, fun _ => 7, fun _ _ => .exited 0, 8⟩
            ⟨some [⟨"main.c", true, 5⟩], fun _ => []⟩).bin⟩).link.isSome = true) :=
  C3_second_build_no_compiles "app" .Debug "cc" "c++"
    ⟨fun _ _ => .exited 0, fun _ => 7, fun _ _ => .exited 0, 8⟩
    [⟨"main.c", true, 5⟩] (fun _ => []) (fun _ _ => rfl) (by decide)
    (by decide) (by decide) rfl

/-- Claim C4: the link step collects exactly the regular files with extension
`o` directly inside the mode's output directory, including objects not
compiled this run, and invokes the C toolchain command (never the C++ one)
with those object paths followed by the optimization flag, `-o`, and the path
`<output_dir>/<project name>`. -/
theorem C4_link_step (name : String) (mode : BuildMode) (cc cpp : String)
    (w : World) (srcs : List Entry) (bins : BuildMode → List Entry)
    (hok : (compileLoop (mkParams mode cc cpp w) srcs (bins mode)).err = none) :
    (build_project_inner name mode cc cpp w ⟨some srcs, bins⟩).link =
      some ⟨cc,
        (((compileLoop (mkParams mode cc cpp w) srcs (bins mode)).bin.filter
            isObjectFile).map (fun e => binDirOf mode ++ "/" ++ e.name)) ++
          [mode.to_flag, "-o", binDirOf mode ++ "/" ++ name]⟩ := by
  rw [build_link_of_err_none name mode cc cpp w srcs bins hok]
  rfl

theorem C4_link_step_witness :
    (build_project_inner "app" .Debug "mycc" "mycxx"
        ⟨fun _ _ => .exited 0, fun _ => 7, fun _ _ => .exited 0, 8⟩
        ⟨some [],
          fun _ => [⟨"old.c.o", true, 3⟩, ⟨"junk.txt", true, 1⟩,
            ⟨"dir.o", false, 0⟩]⟩).link =
      some ⟨"mycc",
        ((([⟨"old.c.o", true, 3⟩, ⟨"junk.txt", true, 1⟩,
            ⟨"dir.o", false, 0⟩] : List Entry).filter isObjectFile).map
          (fun e => binDirOf .Debug ++ "/" ++ e.name)) ++
          [BuildMode.to_flag .Debug, "-o", binDirOf .Debug ++ "/" ++ "app"]⟩ :=
  C4_link_step "app" .Debug "mycc" "mycxx"
    ⟨fun _ _ => .exited 0, fun _ => 7, fun _ _ => .exited 0, 8⟩ []
    (fun _ => [⟨"old.c.o", true, 3⟩, ⟨"junk.txt", true, 1⟩, ⟨"dir.o", false, 0⟩])
    rfl

/-- Claim C5 counterexample: with `src/` missing the build fails with the
missing-source-directory error and a non-zero exit, but the claim's "no
directories created under bin/" part is false: `fs::create_dir_all` runs
before the source scan, so the mode's output directory is created by the
failed build invocation. -/
theorem C5_counterexample :
    ((build_project_inner "app" .Debug "cc" "c++"
        ⟨fun _ _ => .exited 0, fun _ => 0, fun _ _ => .exited 0, 0⟩
        ⟨none, fun _ => []⟩).result = .error .missingSourceDir ∧
      exitCode (build_project_inner "app" .Debug "cc" "c++"
        ⟨fun _ _ => .exited 0, fun _ => 0, fun _ _ => .exited 0, 0⟩
        ⟨none, fun _ => []⟩).result ≠ 0 ∧
      (build_project_inner "app" .Debug "cc" "c++"
        ⟨fun _ _ => .exited 0, fun _ => 0, fun _ _ => .exited 0, 0⟩
        ⟨none, fun _ => []⟩).binDirEnsured = true) :=
  ⟨rfl, by decide, rfl⟩

/-- Claim C5 (amended): when the project's `src/` directory is missing, the
build fails with the missing-source-directory error and the process exits
non-zero, with no compile and no link invoked; the mode's output directory
under `bin/` is nevertheless created, because `create_dir_all` precedes the
source scan. -/
theorem C5_missing_source_dir (name : String) (mode : BuildMode)
    (cc cpp : String) (w : World) (bins : BuildMode → List Entry) :
    (build_project_inner name mode cc cpp w ⟨none, bins⟩).result =
        .error .missingSourceDir ∧
      exitCode (build_project_inner name mode cc cpp w ⟨none, bins⟩).result ≠ 0 ∧
      (build_project_inner name mode cc cpp w ⟨none, bins⟩).binDirEnsured = true ∧
      (build_project_inner name mode cc cpp w ⟨none, bins⟩).compiles = [] ∧
      (build_project_inner name mode cc cpp w ⟨none, bins⟩).link = none :=
  ⟨rfl, by simp [build_project_inner, exitCode], rfl, rfl, rfl⟩

/-- Claim C6: the toolchain resolver maps C to the `CC` environment value
defaulting to "cc" and Cpp to the `CXX` value defaulting to "c++"; each lazy
static is resolved at most once per process run, and once resolved the same
command string is returned by every later dereference, even if the
environment has changed in between. -/
theorem C6_toolchain_resolver :
    (∀ env : String → Option String,
        (Lang.get_compiler env ⟨none, none⟩ .C).1 = (env "CC").getD "cc") ∧
      (∀ env : String → Option String,
        (Lang.get_compiler env ⟨none, none⟩ .Cpp).1 = (env "CXX").getD "c++") ∧
      (∀ (env env2 : String → Option String) (st : ToolCache) (l : Lang),
        (Lang.get_compiler env2 (Lang.get_compiler env st l).2 l).1 =
          (Lang.get_compiler env st l).1) := by
  refine ⟨fun env => rfl, fun env => rfl, ?_⟩
  intro env env2 st l
  cases st with
  | mk c x =>
    cases l with
    | C => cases c <;> simp [Lang.get_compiler, forceCC]
    | Cpp => cases x <;> simp [Lang.get_compiler, forceCXX]

/-- Claim C7: a `src/` entry belongs to the build set iff it is a regular
file whose extension parses to a known language, where `c` maps to C and
`cc`, `cxx`, `cpp`, `c++` map to Cpp and every other extension is rejected;
entries failing the test are skipped by the compile loop silently, without
error. -/
theorem C7_source_filter :
    (Lang.fromStr "c" = some .C) ∧
      (Lang.fromStr "cc" = some .Cpp ∧ Lang.fromStr "cxx" = some .Cpp ∧
        Lang.fromStr "cpp" = some .Cpp ∧ Lang.fromStr "c++" = some .Cpp) ∧
      (∀ s, s ≠ "c" → s ≠ "cc" → s ≠ "cxx" → s ≠ "cpp" → s ≠ "c++" →
        Lang.fromStr s = none) ∧
      (∀ (P : Params) (bin : List Entry) (e : Entry),
        sourceSetMember e = false → stepEntry P bin e = .skip) ∧
      (∀ (P : Params) (bin : List Entry) (e : Entry),
        stepEntry P bin e ≠ .skip → sourceSetMember e = true) := by
  refine ⟨by decide, by decide, ?_, stepEntry_eq_skip_of_not_member,
    stepEntry_member_of_ne_skip⟩
  intro s h1 h2 h3 h4 h5
  simp [Lang.fromStr, h1, h2, h3, h4, h5]

theorem C7_source_filter_witness :
    (Lang.fromStr "txt" = none ∧
      stepEntry ⟨"cc", "c++", "-O0", "src", "bin/debug",
          ⟨fun _ _ => .exited 0, fun _ => 0, fun _ _ => .exited 0, 0⟩⟩ []
        ⟨"notes.txt", true, 3⟩ = .skip ∧
      stepEntry ⟨"cc", "c++", "-O0", "src", "bin/debug",
          ⟨fun _ _ => .exited 0, fun _ => 0, fun _ _ => .exited 0, 0⟩⟩ []
        ⟨"subdir", false, 3⟩ = .skip) :=
  ⟨C7_source_filter.2.2.1 "txt" (by decide) (by decide) (by decide) (by decide)
      (by decide),
    C7_source_filter.2.2.2.1 _ [] ⟨"notes.txt", true, 3⟩ (by decide),
    C7_source_filter.2.2.2.1 _ [] ⟨"subdir", false, 3⟩ (by decide)⟩

/-- Claim C8: Debug maps to the flag "-O0" and output directory `bin/debug`,
Release to "-O3" and `bin/release`; the executable paths of the two modes
differ for every project name, and a build in a given mode reads only that
mode's output directory, so its staleness decisions and link inputs never
consult the other mode's state. -/
theorem C8_mode_isolation :
    (BuildMode.to_flag .Debug = "-O0") ∧ (BuildMode.to_flag .Release = "-O3") ∧
      (binDirOf .Debug = "bin/debug") ∧ (binDirOf .Release = "bin/release") ∧
      (∀ name : String,
        binDirOf .Debug ++ "/" ++ name ≠ binDirOf .Release ++ "/" ++ name) ∧
      (∀ (name : String) (mode : BuildMode) (cc cpp : String) (w : World)
          (src : Option (List Entry)) (bins bins2 : BuildMode → List Entry),
        bins mode = bins2 mode →
          build_project_inner name mode cc cpp w ⟨src, bins⟩ =
            build_project_inner name mode cc cpp w ⟨src, bins2⟩) := by
  refine ⟨rfl, rfl, rfl, rfl, ?_, ?_⟩
  · intro name h
    have hlen := congrArg String.length h
    rw [show binDirOf .Debug = "bin/debug" from rfl,
      show binDirOf .Release = "bin/release" from rfl] at hlen
    simp only [String.length_append] at hlen
    rw [show ("bin/debug" : String).length = 9 from rfl,
      show ("bin/release" : String).length = 11 from rfl,
      show ("/" : String).length = 1 from rfl] at hlen
    omega
  · intro name mode cc cpp w src bins bins2 h
    unfold build_project_inner
    cases src with
    | none => simp [h]
    | some srcs => simp [h]

theorem C8_mode_isolation_witness :
    build_project_inner "app" .Debug "cc" "c++"
        ⟨fun _ _ => .exited 0, fun _ => 7, fun _ _ => .exited 0, 8⟩
        ⟨some [⟨"main.c", true, 5⟩],
          fun m => match m with | .Debug => [] | .Release => [⟨"x.o", true, 9⟩]⟩ =
      build_project_inner "app" .Debug "cc" "c++"
        ⟨fun _ _ => .exited 0, fun _ => 7, fun _ _ => .exited 0, 8⟩
        ⟨some [⟨"main.c", true, 5⟩], fun _ => []⟩ :=
  C8_mode_isolation.2.2.2.2.2 "app" .Debug "cc" "c++"
    ⟨fun _ _ => .exited 0, fun _ => 7, fun _ _ => .exited 0, 8⟩
    (some [⟨"main.c", true, 5⟩])
    (fun m => match m with | .Debug => [] | .Release => [⟨"x.o", true, 9⟩])
    (fun _ => []) rfl

/-- Claim C9: a compile whose child process cannot be launched at all fails
with a spawn error naming the compiler command, an error distinct from the
compile-failed error produced when the compiler runs and exits non-zero; no
object file is written for that source, no link is attempted, and the
process exits non-zero. -/
theorem C9_toolchain_unavailable (name : String) (mode : BuildMode)
    (cc cpp : String) (w : World) (bins : BuildMode → List Entry)
    (xs ys : List Entry) (b : Entry) (l : Lang)
    (hpre : (compileLoop (mkParams mode cc cpp w) xs (bins mode)).err = none)
    (hf : b.isFile = true) (hl : langOfName b.name = some l)
    (hmiss : lookupEntry (compileLoop (mkParams mode cc cpp w) xs (bins mode)).bin
      (objName b) = none)
    (hspawn : w.compileSpawn (compilerOf (mkParams mode cc cpp w) l)
      ("src/" ++ b.name) = .launchFail) :
    (build_project_inner name mode cc cpp w ⟨some (xs ++ b :: ys), bins⟩).result =
        .error (.spawnFail (compilerOf (mkParams mode cc cpp w) l)) ∧
      lookupEntry (build_project_inner name mode cc cpp w
        ⟨some (xs ++ b :: ys), bins⟩).bin (objName b) = none ∧
      (build_project_inner name mode cc cpp w ⟨some (xs ++ b :: ys), bins⟩).link =
        none ∧
      exitCode (build_project_inner name mode cc cpp w
        ⟨some (xs ++ b :: ys), bins⟩).result ≠ 0 ∧
      (∀ p, BuildError.spawnFail (compilerOf (mkParams mode cc cpp w) l) ≠
        BuildError.compileFailed p) := by
  have hst : isStale (compileLoop (mkParams mode cc cpp w) xs (bins mode)).bin
      (objName b) b.mtime = true := by
    rw [isStale_eq_true_iff]
    exact Or.inl hmiss
  have hstep : stepEntry (mkParams mode cc cpp w)
      (compileLoop (mkParams mode cc cpp w) xs (bins mode)).bin b =
      .failed (.spawnFail (compilerOf (mkParams mode cc cpp w) l)) :=
    stepEntry_eq_failed_spawn (mkParams mode cc cpp w)
      (compileLoop (mkParams mode cc cpp w) xs (bins mode)).bin b l hf hl hst hspawn
  have hloop : compileLoop (mkParams mode cc cpp w) (xs ++ b :: ys) (bins mode) =
      ⟨(compileLoop (mkParams mode cc cpp w) xs (bins mode)).bin,
       (compileLoop (mkParams mode cc cpp w) xs (bins mode)).compiles,
       (compileLoop (mkParams mode cc cpp w) xs (bins mode)).compiledSrcs,
       some (.spawnFail (compilerOf (mkParams mode cc cpp w) l))⟩ := by
    rw [compileLoop_append_ok (mkParams mode cc cpp w) xs (b :: ys) (bins mode) hpre]
    rw [compileLoop]
    simp only [hstep]
    simp
  have hbuild := build_eq_of_err_some name mode cc cpp w (xs ++ b :: ys) bins
    (.spawnFail (compilerOf (mkParams mode cc cpp w) l)) (by rw [hloop])
  refine ⟨by rw [hbuild], ?_, by rw [hbuild], ?_, ?_⟩
  · rw [hbuild]
    simp only
    rw [hloop]
    exact hmiss
  · rw [hbuild]
    simp [exitCode]
  · intro p h
    exact BuildError.noConfusion h

theorem C9_toolchain_unavailable_witness :
    ((build_project_inner "app" .Debug "cc" "c++"
        ⟨fun _ _ => .launchFail, fun _ => 7, fun _ _ => .exited 0, 8⟩
        ⟨some ([] ++ (⟨"a.c", true, 5⟩ : Entry) :: []), fun _ => []⟩).result =
        .error (.spawnFail (compilerOf
          (mkParams .Debug "cc" "c++"
            ⟨fun _ _ => .launchFail, fun _ => 7, fun _ _ => .exited 0, 8⟩) Lang.C)) ∧
      lookupEntry (build_project_inner "app" .Debug "cc" "c++"
        ⟨fun _ _ => .launchFail, fun _ => 7, fun _ _ => .exited 0, 8⟩
        ⟨some ([] ++ (⟨"a.c", true, 5⟩ : Entry) :: []), fun _ => []⟩).bin
        (objName ⟨"a.c", true, 5⟩) = none ∧
      (build_project_inner "app" .Debug "cc" "c++"
        ⟨fun _ _ => .launchFail, fun _ => 7, fun _ _ => .exited 0, 8⟩
        ⟨some ([] ++ (⟨"a.c", true, 5⟩ : Entry) :: []), fun _ => []⟩).link = none ∧
      exitCode (build_project_inner "app" .Debug "cc" "c++"
        ⟨fun _ _ => .launchFail, fun _ => 7, fun _ _ => .exited 0, 8⟩
        ⟨some ([] ++ (⟨"a.c", true, 5⟩ : Entry) :: []), fun _ => []⟩).result ≠ 0 ∧
      (∀ p, BuildError.spawnFail (compilerOf
          (mkParams .Debug "cc" "c++"
            ⟨fun _ _ => .launchFail, fun _ => 7, fun _ _ => .exited 0, 8⟩) Lang.C) ≠
        BuildError.compileFailed p)) :=
  C9_toolchain_unavailable "app" .Debug "cc" "c++"
    ⟨fun _ _ => .launchFail, fun _ => 7, fun _ _ => .exited 0, 8⟩ (fun _ => [])
    [] [] ⟨"a.c", true, 5⟩ Lang.C rfl rfl rfl rfl rfl

/-- Claim C10: in run mode, after a successful build the produced executable
is spawned and waited on, but its exit status is discarded: whenever the
built program exits with a non-zero status while the spawn and wait succeed,
`run_project` returns success and the tool exits zero. -/
theorem C10_run_discards_status (name : String) (mode : BuildMode)
    (cc cpp : String) (w : World) (fs : FS) (code : Nat) (hc : code ≠ 0)
    (hok : (build_project_inner name mode cc cpp w fs).result = .ok ()) :
    run_project name mode cc cpp w (.waitResult code) fs = .ok () ∧
      exitCode (run_project name mode cc cpp w (.waitResult code) fs) = 0 := by
  unfold run_project
  simp [hok, exitCode]

theorem C10_run_discards_status_witness :
    (run_project "app" .Debug "cc" "c++"
        ⟨fun _ _ => .exited 0, fun _ => 0, fun _ _ => .exited 0, 0⟩
        (.waitResult 3) ⟨some [], fun _ => []⟩ = .ok () ∧
      exitCode (run_project "app" .Debug "cc" "c++"
        ⟨fun _ _ => .exited 0, fun _ => 0, fun _ _ => .exited 0, 0⟩
        (.waitResult 3) ⟨some [], fun _ => []⟩) = 0) :=
  C10_run_discards_status "app" .Debug "cc" "c++"
    ⟨fun _ _ => .exited 0, fun _ => 0, fun _ _ => .exited 0, 0⟩
    ⟨some [], fun _ => []⟩ 3 (by decide) rfl

end Bake

